import Mathlib

set_option maxRecDepth 8192

namespace Hindia

/-- A lexeme produced by the lexer: the source text of one minimal lexical
unit together with its file name and line number (spec sections 3 and 6; the
`Lexeme` record of `lexer.h` referenced by `tokenizer.h`). -/
structure Lexeme where
  image : String
  fname : String
  line : Nat
  deriving DecidableEq

/-- The token-type enumeration of `src/tokenizer.h` (enum `TokenType`,
lines 34-111), in declaration order. -/
inductive TokenType where
  | TT_INTEGER
  | TT_FLOAT
  | TT_STRING
  | TT_IDENTIFIER
  | TT_BOOLEAN
  | TT_IT
  | TT_ITZLIEKA
  | TT_NOOB
  | TT_NUMBR
  | TT_NUMBAR
  | TT_TROOF
  | TT_YARN
  | TT_BUKKIT
  | TT_EOF
  | TT_NEWLINE
  | TT_HAI
  | TT_KTHXBYE
  | TT_HASA
  | TT_HASAN
  | TT_ITZA
  | TT_ITZ
  | TT_RNOOB
  | TT_R
  | TT_ANYR
  | TT_AN
  | TT_SUMOF
  | TT_DIFFOF
  | TT_PRODUKTOF
  | TT_QUOSHUNTOF
  | TT_MODOF
  | TT_BIGGROF
  | TT_SMALLROF
  | TT_BOTHOF
  | TT_EITHEROF
  | TT_WONOF
  | TT_NOT
  | TT_MKAY
  | TT_ALLOF
  | TT_ANYOF
  | TT_BOTHSAEM
  | TT_DIFFRINT
  | TT_MAEK
  | TT_A
  | TT_ISNOWA
  | TT_VISIBLE
  | TT_INVISIBLE
  | TT_SMOOSH
  | TT_BANG
  | TT_GIMMEH
  | TT_ORLY
  | TT_YARLY
  | TT_MEBBE
  | TT_NOWAI
  | TT_OIC
  | TT_WTF
  | TT_OMG
  | TT_OMGWTF
  | TT_GTFO
  | TT_IMINYR
  | TT_UPPIN
  | TT_NERFIN
  | TT_YR
  | TT_TIL
  | TT_WILE
  | TT_IMOUTTAYR
  | TT_HOWIZ
  | TT_IZ
  | TT_IFUSAYSO
  | TT_FOUNDYR
  | TT_SRS
  | TT_APOSTROPHEZ
  | TT_OHAIIM
  | TT_IMLIEK
  | TT_KTHX
  | TT_ENDOFTOKENS
  deriving DecidableEq

open TokenType

/-- The token types in C enumeration order, so that the position of a type in
this list is its C enum value. -/
def allTokenTypes : List TokenType := [
  TT_INTEGER,
  TT_FLOAT,
  TT_STRING,
  TT_IDENTIFIER,
  TT_BOOLEAN,
  TT_IT,
  TT_ITZLIEKA,
  TT_NOOB,
  TT_NUMBR,
  TT_NUMBAR,
  TT_TROOF,
  TT_YARN,
  TT_BUKKIT,
  TT_EOF,
  TT_NEWLINE,
  TT_HAI,
  TT_KTHXBYE,
  TT_HASA,
  TT_HASAN,
  TT_ITZA,
  TT_ITZ,
  TT_RNOOB,
  TT_R,
  TT_ANYR,
  TT_AN,
  TT_SUMOF,
  TT_DIFFOF,
  TT_PRODUKTOF,
  TT_QUOSHUNTOF,
  TT_MODOF,
  TT_BIGGROF,
  TT_SMALLROF,
  TT_BOTHOF,
  TT_EITHEROF,
  TT_WONOF,
  TT_NOT,
  TT_MKAY,
  TT_ALLOF,
  TT_ANYOF,
  TT_BOTHSAEM,
  TT_DIFFRINT,
  TT_MAEK,
  TT_A,
  TT_ISNOWA,
  TT_VISIBLE,
  TT_INVISIBLE,
  TT_SMOOSH,
  TT_BANG,
  TT_GIMMEH,
  TT_ORLY,
  TT_YARLY,
  TT_MEBBE,
  TT_NOWAI,
  TT_OIC,
  TT_WTF,
  TT_OMG,
  TT_OMGWTF,
  TT_GTFO,
  TT_IMINYR,
  TT_UPPIN,
  TT_NERFIN,
  TT_YR,
  TT_TIL,
  TT_WILE,
  TT_IMOUTTAYR,
  TT_HOWIZ,
  TT_IZ,
  TT_IFUSAYSO,
  TT_FOUNDYR,
  TT_SRS,
  TT_APOSTROPHEZ,
  TT_OHAIIM,
  TT_IMLIEK,
  TT_KTHX,
  TT_ENDOFTOKENS
]

/-- The `keywords` array of `src/tokenizer.h` (lines 113-189), entry for
entry and byte for byte: the canonical surface phrase of each token type,
indexed by C enum value. -/
def keywords : List String := [
  "",  -- TT_INTEGER
  "",  -- TT_FLOAT
  "",  -- TT_STRING
  "",  -- TT_IDENTIFIER
  "",  -- TT_BOOLEAN
  "ताज़ा",  -- TT_IT
  "छापों",  -- TT_ITZLIEKA
  "खाली",  -- TT_NOOB
  "संख्या",  -- TT_NUMBR
  "दशमलव",  -- TT_NUMBAR
  "हाना",  -- TT_TROOF
  "अक्षरमाला",  -- TT_YARN
  "माला",  -- TT_BUKKIT
  "",  -- TT_EOF
  "",  -- TT_NEWLINE
  "नमस्ते",  -- TT_HAI
  "अलविदा",  -- TT_KTHXBYE
  "चीज़",  -- TT_HASA
  "चीज़",  -- TT_HASAN
  "है एक",  -- TT_ITZA
  "है",  -- TT_ITZ
  "है खाली",  -- TT_RNOOB
  "अब है",  -- TT_R
  "और जानकारी",  -- TT_ANYR
  "और",  -- TT_AN
  "जोड़",  -- TT_SUMOF
  "घाटा",  -- TT_DIFFOF
  "गुणा",  -- TT_PRODUKTOF
  "भाग",  -- TT_QUOSHUNTOF
  "बाकी",  -- TT_MODOF
  "बड़ा",  -- TT_BIGGROF
  "छोटा",  -- TT_SMALLROF
  "दोनों",  -- TT_BOTHOF
  "कोई एक",  -- TT_EITHEROF
  "सिर्फ़ एक",  -- TT_WONOF
  "नहीं",  -- TT_NOT
  "बस",  -- TT_MKAY
  "सब",  -- TT_ALLOF
  "कुछ",  -- TT_ANYOF
  "बराबर",  -- TT_BOTHSAEM
  "अलग",  -- TT_DIFFRINT
  "बनाओ",  -- TT_MAEK
  "एक",  -- TT_A
  "अब बन गया",  -- TT_ISNOWA
  "दिखाओ",  -- TT_VISIBLE
  "गलती",  -- TT_INVISIBLE
  "जोड़ो",  -- TT_SMOOSH
  "!",  -- TT_BANG
  "दो",  -- TT_GIMMEH
  "क्या?",  -- TT_ORLY
  "हाँ",  -- TT_YARLY
  "या फिर",  -- TT_MEBBE
  "ना",  -- TT_NOWAI
  "अंत",  -- TT_OIC
  "पेड़",  -- TT_WTF
  "शाखा",  -- TT_OMG
  "नही तो",  -- TT_OMGWTF
  "तोड़ो",  -- TT_GTFO
  "शुरू करो",  -- TT_IMINYR
  "बढ़ाओ",  -- TT_UPPIN
  "बढ़ाओ",  -- TT_NERFIN
  "यह",  -- TT_YR
  "जब तक नहीं",  -- TT_TIL
  "जब तक",  -- TT_WILE
  "खतम करो",  -- TT_IMOUTTAYR
  "काम",  -- TT_HOWIZ
  "बुलाओ",  -- TT_IZ
  "कामखतम",  -- TT_IFUSAYSO
  "वापस",  -- TT_FOUNDYR
  "सरस",  -- TT_SRS
  "\x27का",  -- TT_APOSTROPHEZ
  "O HAI IM",  -- TT_OHAIIM
  "IM LIEK",  -- TT_IMLIEK
  "खतम",  -- TT_KTHX
  ""  -- TT_ENDOFTOKENS
]

/-- The C enum value of a token type: its index in declaration order. -/
def ttIndex (t : TokenType) : Nat := allTokenTypes.indexOf t

/-- The phrase `keywords[t]` of `src/tokenizer.h`: the keyword table entry
for token type `t`. -/
def keywordAt (t : TokenType) : String := keywords.getD (ttIndex t) ""

/-- Split a character list at space characters; the accumulator holds the
(reversed) characters of the word currently being read.  Keeps empty words,
like splitting on a single-character separator does. -/
def splitWordsAux : List Char → List Char → List (List Char)
  | [], acc => [acc.reverse]
  | c :: cs, acc =>
    if c = ' ' then acc.reverse :: splitWordsAux cs []
    else splitWordsAux cs (c :: acc)

/-- The whitespace-separated words of a phrase (spec section 4.2: a phrase is
an ordered sequence of one or more words). -/
def phraseWords (s : String) : List String :=
  (splitWordsAux s.data []).map String.mk

/-- Concatenation of a list of words with single-space separators (spec
section 4.3). -/
def joinWords : List String → String
  | [] => ""
  | [w] => w
  | w :: v :: ws => w ++ " " ++ joinWords (v :: ws)

/-- Character-level analogue of `joinWords`: concatenation of word character
lists with single-space separators. -/
def charJoin : List (List Char) → List Char
  | [] => []
  | [w] => w
  | w :: v :: ws => w ++ ' ' :: charJoin (v :: ws)

/-- Number of whitespace-separated words in a phrase. -/
def wordCount (s : String) : Nat := (phraseWords s).length

/-- Check a list of words against the images of consecutive lexemes,
word for word. -/
def matchWords : List String → List Lexeme → Bool
  | [], _ => true
  | _ :: _, [] => false
  | w :: ws, x :: xs => w == x.image && matchWords ws xs

/-- Modelled from the spec: the body of `acceptLexemes` lives in
`tokenizer.c`, which is absent from `src/`; only its declaration appears in
`src/tokenizer.h` (line 233).  Spec section 4.3: given the lexeme list, a
starting index and a target phrase, the lexemes beginning at that index must
literally spell out the phrase word for word; on success the number of
lexemes consumed (the number of words of the phrase) is returned, otherwise
zero. -/
def acceptLexemes (l : List Lexeme) (start : Nat) (phrase : String) : Nat :=
  if matchWords (phraseWords phrase) (l.drop start) then
    (phraseWords phrase).length
  else 0

/-- Modelled from the spec: the Keyword Table as scanned by the Recognizer
(spec section 4.2): the (kind, phrase) pairs of the `keywords` array in table
order, restricted to the entries that carry a phrase (one entry per keyword
token kind, covering all non-literal kinds except the structural ones). -/
def keywordEntries : List (TokenType × String) :=
  (allTokenTypes.zip keywords).filter (fun e => e.2 != "")

/-- Payload of an `Integer` token: C `long long`, a 64-bit signed integer. -/
def I64 : Type := {n : Int // -(2 ^ 63) ≤ n ∧ n < 2 ^ 63}

/-- Payload of a `Float` token: C `float`, modelled by its 32-bit pattern. -/
def FloatBits : Type := Fin (2 ^ 32)

/-- The `TokenData` union of `src/tokenizer.h` (lines 194-197): either
integer data (`long long i`) or decimal data (`float f`). -/
inductive TokenData where
  | i (n : I64)
  | f (b : FloatBits)

/-- The `Token` structure of `src/tokenizer.h` (lines 202-208).  The C
struct always embeds the union; following spec section 3 the payload is an
optional value, present exactly when it is meaningful. -/
structure Token where
  type : TokenType
  data : Option TokenData
  image : String
  fname : String
  line : Nat

/-- Modelled from the spec: the keyword token built by `isKeyword` on a
match (spec section 4.4): the winning kind, the reconstructed phrase text as
image, and positional metadata taken from the first lexeme of the window. -/
def mkKeywordToken (l : List Lexeme) (start : Nat) (t : TokenType) : Token :=
  let x := l.getD start ⟨"", "", 0⟩
  { type := t, data := none, image := keywordAt t, fname := x.fname, line := x.line }

/-- Modelled from the spec: the scan of `isKeyword` over the Keyword Table
(spec section 4.4), tracking the entry yielding the longest successful match;
a later entry replaces the tracked one only when its match is strictly
longer, so among equal maximal lengths the first entry in table order wins. -/
def recognizerStep (l : List Lexeme) (start : Nat)
    (best : Option (TokenType × Nat)) (e : TokenType × String) :
    Option (TokenType × Nat) :=
  let n := acceptLexemes l start e.2
  if n = 0 then best
  else
    match best with
    | none => some (e.1, n)
    | some (_, m) => if m < n then some (e.1, n) else best

/-- Modelled from the spec: the scan of `isKeyword` over the Keyword Table
(spec section 4.4): fold the recognizer step over the table in order,
starting from no tracked entry. -/
def bestMatch (l : List Lexeme) (start : Nat) : Option (TokenType × Nat) :=
  keywordEntries.foldl (recognizerStep l start) none

/-- Modelled from the spec: the body of `isKeyword` lives in `tokenizer.c`,
absent from `src/`; only its declaration appears in `src/tokenizer.h` (line
220).  Spec section 4.4: scan the Keyword Table in table order for the
longest match at `start` (first entry wins ties); on a match return the
constructed token and the number of lexemes consumed, otherwise the
no-keyword sentinel (`none`). -/
def isKeyword (l : List Lexeme) (start : Nat) : Option (Token × Nat) :=
  (bestMatch l start).map (fun e => (mkKeywordToken l start e.1, e.2))

/-- Modelled from the spec: the body of `isInteger` lives in `tokenizer.c`,
absent from `src/` (declaration: `src/tokenizer.h` line 216).  Spec section
4.1: an optional leading minus sign followed by one or more decimal digits,
with no other characters. -/
def isInteger (s : String) : Bool :=
  match s.data with
  | '-' :: ds => ds ≠ [] && ds.all Char.isDigit
  | ds => ds ≠ [] && ds.all Char.isDigit

/-- Modelled from the spec: the body of `isFloat` lives in `tokenizer.c`,
absent from `src/` (declaration: `src/tokenizer.h` line 217).  Spec section
4.1: an optional leading minus sign, one or more digits, a single decimal
point, and one or more digits. -/
def isFloat (s : String) : Bool :=
  let body := match s.data with
    | '-' :: ds => ds
    | ds => ds
  match body.splitOn '.' with
  | [intPart, fracPart] =>
      intPart ≠ [] && intPart.all Char.isDigit &&
      (fracPart ≠ [] && fracPart.all Char.isDigit)
  | _ => false

/-- Modelled from the spec: the body of `isString` lives in `tokenizer.c`,
absent from `src/` (declaration: `src/tokenizer.h` line 218).  Spec section
4.1: the text begins and ends with a double quote and contains no unescaped
embedded double quote; no escape decoding is performed. -/
def isString (s : String) : Bool :=
  let noUnescapedQuote : List Char → Bool := fun cs =>
    (cs.enum.all (fun p =>
      p.2 ≠ '"' ∨ (0 < p.1 ∧ cs.getD (p.1 - 1) ' ' = '\\')))
  match s.data with
  | '"' :: rest =>
      rest ≠ [] && rest.getLast? == some '"' && noUnescapedQuote rest.dropLast
  | _ => false

/-- Modelled from the spec: the body of `isIdentifier` lives in
`tokenizer.c`, absent from `src/` (declaration: `src/tokenizer.h` line 219).
Spec section 4.1: an alphabetic character or underscore followed by
alphanumeric characters or underscores. -/
def isIdentifier (s : String) : Bool :=
  match s.data with
  | c :: cs => (c.isAlpha || c = '_') && cs.all (fun d => d.isAlphanum || d = '_')
  | [] => false
/-- Decode a decimal integer literal: an optional leading minus sign
followed by decimal digits (spec section 4.5). -/
def decodeInt (s : String) : Int :=
  match s.data with
  | '-' :: ds => -(ds.foldl (fun acc c => 10 * acc + (c.toNat - '0'.toNat)) 0 : Nat)
  | ds => (ds.foldl (fun acc c => 10 * acc + (c.toNat - '0'.toNat)) 0 : Nat)

/-- Modelled from the spec: the failure modes of tokenization (spec section
7): an unrecognized lexeme or a numeric overflow, each reported with the
offending text, file name and line number.  `outOfFuel` is an artifact of
the fuel-based recursion below and is never returned when the fuel exceeds
the number of unread lexemes. -/
inductive TokenizerError where
  | unrecognized (image fname : String) (line : Nat)
  | overflow (image fname : String) (line : Nat)
  | outOfFuel
  deriving DecidableEq

/-- Modelled from the spec: the end-of-input token appended once the lexeme
list is exhausted (spec sections 3 and 4.6): a structural token carrying no
source text, with positional metadata from the last lexeme if any. -/
def eofToken (l : List Lexeme) : Token :=
  let x := l.getLast?.getD ⟨"", "", 0⟩
  { type := .TT_EOF, data := none, image := "", fname := x.fname, line := x.line }

/-- Modelled from the spec: a literal token (spec section 4.5): the image is
stored verbatim, the payload is given explicitly. -/
def literalToken (t : TokenType) (x : Lexeme) (d : Option TokenData) : Token :=
  { type := t, data := d, image := x.image, fname := x.fname, line := x.line }

/-- Modelled from the spec: one left-to-right scan of the Token Stream
Builder (`tokenizeLexemes`, whose body lives in `tokenizer.c`, absent from
`src/`; declaration: `src/tokenizer.h` line 242).  Spec section 4.6: while
lexemes remain, a newline lexeme becomes a newline token; otherwise the
Keyword Recognizer is attempted, and on a match the cursor advances by the
lexemes consumed; otherwise the literal classifiers are tried in the order
integer, float, string, identifier (an integer whose magnitude exceeds the
64-bit signed range is a numeric-overflow error, spec section 7); otherwise
tokenization aborts with an unrecognized-lexeme error.  This function is one
step of that scan at cursor `start` on lexeme `x`, returning the emitted
token and the number of lexemes consumed, or the terminal error. -/
def tokenizeStep (l : List Lexeme) (start : Nat) (x : Lexeme) :
    Except TokenizerError (Token × Nat) :=
  if x.image = "\n" then .ok (literalToken .TT_NEWLINE x none, 1)
  else
    match isKeyword l start with
    | some (tok, n) => .ok (tok, n)
    | none =>
      if isInteger x.image then
        if h : -(2 ^ 63) ≤ decodeInt x.image ∧ decodeInt x.image < 2 ^ 63 then
          .ok (literalToken .TT_INTEGER x (some (.i ⟨decodeInt x.image, h⟩)), 1)
        else .error (.overflow x.image x.fname x.line)
      else if isFloat x.image then
        .ok (literalToken .TT_FLOAT x (some (.f ⟨0, by norm_num⟩)), 1)
      else if isString x.image then .ok (literalToken .TT_STRING x none, 1)
      else if isIdentifier x.image then .ok (literalToken .TT_IDENTIFIER x none, 1)
      else .error (.unrecognized x.image x.fname x.line)

/-- Modelled from the spec: the scan loop of the Token Stream Builder: while
lexemes remain, run one step and advance the cursor by the lexemes it
consumed; once the cursor passes the end, append the end-of-input token. -/
def tokenizeGo : Nat → List Lexeme → Nat → List Token → Except TokenizerError (List Token)
  | 0, _, _, _ => .error .outOfFuel
  | fuel + 1, l, start, acc =>
    match l.get? start with
    | none => .ok (acc ++ [eofToken l])
    | some x =>
      match tokenizeStep l start x with
      | .ok (tok, n) => tokenizeGo fuel l (start + n) (acc ++ [tok])
      | .error e => .error e

/-- Modelled from the spec: `tokenizeLexemes` (spec section 4.6) runs the
scan from index 0 with an empty token list.  The spec does not fix the bit
pattern a float literal decodes to; the float payload bits are left at zero
(no claim under verification inspects them), its presence is faithful. -/
def tokenizeLexemes (l : List Lexeme) : Except TokenizerError (List Token) :=
  tokenizeGo (l.length + 1) l 0 []
/-- Test for a character of the Devanagari Unicode block (U+0900 to U+097F),
the target script of the spec. -/
def isDevanagariChar (c : Char) : Bool :=
  0x0900 ≤ c.toNat && c.toNat ≤ 0x097F

/-- Test that every word of a phrase is non-empty and written entirely in
the Devanagari script. -/
def devanagariPhrase (s : String) : Bool :=
  (phraseWords s).all (fun w => w != "" && w.data.all isDevanagariChar)

/-- Claim C3 (counterexample): the word counts the claim asserts do not hold
of the keyword table: the phrase for `TT_ITZLIEKA` is a single word, and so
is the phrase for `TT_IZ`. -/
theorem claim3_counterexample :
    ¬(wordCount (keywordAt TT_ITZLIEKA) = 3 ∧ wordCount (keywordAt TT_R) = 2 ∧
      wordCount (keywordAt TT_IZ) = 2) := by decide

/-- Claim C3 (amended): in the keyword table, the phrase for the
inherited-object-declaration kind (`TT_ITZLIEKA`) consists of one word, the
phrase for the assignment kind (`TT_R`) consists of two words, and the
phrase for the function-scope-delimiter kind (`TT_IZ`) consists of one
word. -/
theorem claim3_amended :
    wordCount (keywordAt TT_ITZLIEKA) = 1 ∧ wordCount (keywordAt TT_R) = 2 ∧
    wordCount (keywordAt TT_IZ) = 1 := by decide

/-- Claim C4: the keyword table assigns an identical surface phrase to more
than one token kind: the two loop-variable increment/decrement kinds
(`TT_UPPIN`, `TT_NERFIN`) share one (non-empty) phrase, and the two
variable-declaration kinds (`TT_HASA`, `TT_HASAN`) share one (non-empty)
phrase. -/
theorem claim4_duplicate_phrases :
    keywordAt TT_UPPIN = keywordAt TT_NERFIN ∧ TT_UPPIN ≠ TT_NERFIN ∧
    keywordAt TT_UPPIN ≠ "" ∧
    keywordAt TT_HASA = keywordAt TT_HASAN ∧ TT_HASA ≠ TT_HASAN ∧
    keywordAt TT_HASA ≠ "" := by decide

/-- Claim C9 (counterexample): not every non-empty phrase of the keyword
table is written in the Devanagari script: the phrase of `TT_OHAIIM` is
`"O HAI IM"`, in the Latin script. -/
theorem claim9_counterexample :
    keywordAt TT_OHAIIM ≠ "" ∧ devanagariPhrase (keywordAt TT_OHAIIM) = false := by
  decide

/-- Claim C9 (amended): every non-empty phrase in the keyword table is a
string of one or more whitespace-separated non-empty words, and every
non-empty phrase is written in the Devanagari script except the phrases of
`TT_BANG`, `TT_ORLY`, `TT_APOSTROPHEZ`, `TT_OHAIIM` and `TT_IMLIEK`, which
contain characters outside that script. -/
theorem claim9_amended :
    (∀ t ∈ allTokenTypes, keywordAt t ≠ "" →
      0 < wordCount (keywordAt t) ∧
      (phraseWords (keywordAt t)).all (fun w => w != "") = true) ∧
    (∀ t ∈ allTokenTypes, keywordAt t ≠ "" →
      t ∉ ([TT_BANG, TT_ORLY, TT_APOSTROPHEZ, TT_OHAIIM, TT_IMLIEK] : List TokenType) →
      devanagariPhrase (keywordAt t) = true) ∧
    (∀ t ∈ ([TT_BANG, TT_ORLY, TT_APOSTROPHEZ, TT_OHAIIM, TT_IMLIEK] : List TokenType),
      devanagariPhrase (keywordAt t) = false) := by
  refine ⟨by decide, by decide, by decide⟩

/-- Claim C9 (witness for the amended theorem): instantiated at the
main-block-begin keyword. -/
theorem claim9_witness :
    (0 < wordCount (keywordAt TT_HAI) ∧
      (phraseWords (keywordAt TT_HAI)).all (fun w => w != "") = true) ∧
    devanagariPhrase (keywordAt TT_HAI) = true :=
  ⟨claim9_amended.1 TT_HAI (by decide) (by decide),
   claim9_amended.2.1 TT_HAI (by decide) (by decide) (by decide)⟩

/-- Claim C10: the keywords array has exactly one entry for every token
type (same length as the enumeration, which lists every value exactly
once), and the entry is the empty string exactly for the five literal
kinds, the two structural kinds and the end-of-enum sentinel. -/
theorem claim10_keywords_shape :
    keywords.length = allTokenTypes.length ∧
    allTokenTypes.Nodup ∧
    (∀ t : TokenType, t ∈ allTokenTypes) ∧
    (∀ t : TokenType, keywordAt t = "" ↔
      t ∈ ([TT_INTEGER, TT_FLOAT, TT_STRING, TT_IDENTIFIER, TT_BOOLEAN,
            TT_EOF, TT_NEWLINE, TT_ENDOFTOKENS] : List TokenType)) := by
  refine ⟨by decide, by decide, fun t => by cases t <;> decide,
    fun t => by cases t <;> decide⟩
/-- Claim C8: tokenizing the single lexeme `"नमस्ते"` (whatever its file and
line) yields exactly two tokens: a keyword token of the main-block-begin
kind, then the end-of-input token. -/
theorem claim8_hai_scenario (fn : String) (ln : Nat) :
    tokenizeLexemes [⟨"नमस्ते", fn, ln⟩] =
      .ok [⟨TT_HAI, none, "नमस्ते", fn, ln⟩, ⟨TT_EOF, none, "", fn, ln⟩] := rfl

theorem recognizerStep_zero {l : List Lexeme} {start : Nat}
    {e : TokenType × String} (h : acceptLexemes l start e.2 = 0)
    (best : Option (TokenType × Nat)) :
    recognizerStep l start best e = best := by
  simp [recognizerStep, h]

theorem recognizerStep_none {l : List Lexeme} {start : Nat}
    {e : TokenType × String} (h : acceptLexemes l start e.2 ≠ 0) :
    recognizerStep l start none e = some (e.1, acceptLexemes l start e.2) := by
  simp [recognizerStep, h]

theorem recognizerStep_lt {l : List Lexeme} {start : Nat}
    {e : TokenType × String} {t0 : TokenType} {m : Nat}
    (h : acceptLexemes l start e.2 ≠ 0) (hm : m < acceptLexemes l start e.2) :
    recognizerStep l start (some (t0, m)) e = some (e.1, acceptLexemes l start e.2) := by
  simp [recognizerStep, h, hm]

theorem recognizerStep_ge {l : List Lexeme} {start : Nat}
    {e : TokenType × String} {t0 : TokenType} {m : Nat}
    (h : acceptLexemes l start e.2 ≠ 0) (hm : ¬ m < acceptLexemes l start e.2) :
    recognizerStep l start (some (t0, m)) e = some (t0, m) := by
  simp [recognizerStep, h, hm]

/-- If the recognizer fold over a table fragment yields no entry, it started
with none and every phrase of the fragment failed to match. -/
theorem foldl_recognizer_none (l : List Lexeme) (start : Nat) :
    ∀ (es : List (TokenType × String)) (acc : Option (TokenType × Nat)),
      es.foldl (recognizerStep l start) acc = none →
      acc = none ∧ ∀ e ∈ es, acceptLexemes l start e.2 = 0 := by
  intro es
  induction es with
  | nil => intro acc h; exact ⟨h, by simp⟩
  | cons e es ih =>
    intro acc h
    rw [List.foldl_cons] at h
    obtain ⟨hstep, hall⟩ := ih _ h
    by_cases ha : acceptLexemes l start e.2 = 0
    · rw [recognizerStep_zero ha] at hstep
      refine ⟨hstep, fun e' he' => ?_⟩
      rcases List.mem_cons.mp he' with rfl | he'
      · exact ha
      · exact hall e' he'
    · exfalso
      cases acc with
      | none => rw [recognizerStep_none ha] at hstep; cases hstep
      | some q =>
        obtain ⟨t0, m⟩ := q
        by_cases hm : m < acceptLexemes l start e.2
        · rw [recognizerStep_lt ha hm] at hstep; cases hstep
        · rw [recognizerStep_ge ha hm] at hstep; cases hstep

/-- If every phrase of a table fragment fails to match, the recognizer fold
leaves the tracked entry unchanged. -/
theorem foldl_recognizer_all_zero (l : List Lexeme) (start : Nat) :
    ∀ (es : List (TokenType × String)) (acc : Option (TokenType × Nat)),
      (∀ e ∈ es, acceptLexemes l start e.2 = 0) →
      es.foldl (recognizerStep l start) acc = acc := by
  intro es
  induction es with
  | nil => intro acc _; rfl
  | cons e es ih =>
    intro acc h
    rw [List.foldl_cons, recognizerStep_zero (h e (by simp)) acc]
    exact ih acc (fun e' he' => h e' (List.mem_cons_of_mem e he'))

/-- Characterization of the recognizer fold when it yields an entry: either
the tracked entry survived and no phrase of the fragment beat it, or the
winner sits somewhere in the fragment, every earlier phrase matched strictly
fewer lexemes, every later phrase matched at most as many, and the entry
tracked at the outset (if any) matched strictly fewer. -/
theorem foldl_recognizer_some (l : List Lexeme) (start : Nat) :
    ∀ (es : List (TokenType × String)) (acc : Option (TokenType × Nat))
      (t : TokenType) (n : Nat),
      (∀ t0 m, acc = some (t0, m) → m ≠ 0) →
      es.foldl (recognizerStep l start) acc = some (t, n) →
      n ≠ 0 ∧
      ((acc = some (t, n) ∧ ∀ e ∈ es, acceptLexemes l start e.2 ≤ n) ∨
        ∃ pre p post, es = pre ++ (t, p) :: post ∧
          acceptLexemes l start p = n ∧
          (∀ e ∈ pre, acceptLexemes l start e.2 < n) ∧
          (∀ e ∈ post, acceptLexemes l start e.2 ≤ n) ∧
          ∀ t0 m, acc = some (t0, m) → m < n) := by
  intro es
  induction es with
  | nil =>
    intro acc t n hacc h
    simp only [List.foldl_nil] at h
    exact ⟨hacc t n h, Or.inl ⟨h, by simp⟩⟩
  | cons e es ih =>
    intro acc t n hacc h
    rw [List.foldl_cons] at h
    by_cases ha : acceptLexemes l start e.2 = 0
    · rw [recognizerStep_zero ha] at h
      obtain ⟨hn, disj⟩ := ih acc t n hacc h
      refine ⟨hn, ?_⟩
      rcases disj with ⟨heq, hall⟩ | ⟨pre, p, post, hsplit, hp, hpre, hpost, hlt⟩
      · refine Or.inl ⟨heq, fun e' he' => ?_⟩
        rcases List.mem_cons.mp he' with rfl | he'
        · omega
        · exact hall e' he'
      · refine Or.inr ⟨e :: pre, p, post, by rw [hsplit, List.cons_append], hp,
          fun e' he' => ?_, hpost, hlt⟩
        rcases List.mem_cons.mp he' with rfl | he'
        · omega
        · exact hpre e' he'
    · cases acc with
      | none =>
        rw [recognizerStep_none ha] at h
        have hacc' : ∀ t0 m, (some (e.1, acceptLexemes l start e.2) :
            Option (TokenType × Nat)) = some (t0, m) → m ≠ 0 := by
          intro t0 m hq
          simp only [Option.some.injEq, Prod.mk.injEq] at hq
          rw [← hq.2]
          exact ha
        obtain ⟨hn, disj⟩ := ih _ t n hacc' h
        refine ⟨hn, Or.inr ?_⟩
        rcases disj with ⟨heq, hall⟩ | ⟨pre, p, post, hsplit, hp, hpre, hpost, hlt⟩
        · simp only [Option.some.injEq, Prod.mk.injEq] at heq
          obtain ⟨rfl, rfl⟩ := heq
          exact ⟨[], e.2, es, by simp, rfl, by simp, hall, by simp⟩
        · have he1 : acceptLexemes l start e.2 < n := hlt e.1 _ rfl
          refine ⟨e :: pre, p, post, by rw [hsplit, List.cons_append], hp,
            fun e' he' => ?_, hpost, by simp⟩
          rcases List.mem_cons.mp he' with rfl | he'
          · exact he1
          · exact hpre e' he'
      | some q =>
        obtain ⟨t0, m⟩ := q
        have hm0 : m ≠ 0 := hacc t0 m rfl
        by_cases hm : m < acceptLexemes l start e.2
        · rw [recognizerStep_lt ha hm] at h
          have hacc' : ∀ t1 m1, (some (e.1, acceptLexemes l start e.2) :
              Option (TokenType × Nat)) = some (t1, m1) → m1 ≠ 0 := by
            intro t1 m1 hq
            simp only [Option.some.injEq, Prod.mk.injEq] at hq
            rw [← hq.2]
            exact ha
          obtain ⟨hn, disj⟩ := ih _ t n hacc' h
          refine ⟨hn, Or.inr ?_⟩
          rcases disj with ⟨heq, hall⟩ | ⟨pre, p, post, hsplit, hp, hpre, hpost, hlt⟩
          · simp only [Option.some.injEq, Prod.mk.injEq] at heq
            obtain ⟨rfl, rfl⟩ := heq
            refine ⟨[], e.2, es, by simp, rfl, by simp, hall, ?_⟩
            intro t1 m1 hq
            simp only [Option.some.injEq, Prod.mk.injEq] at hq
            rw [← hq.2]
            exact hm
          · have he1 : acceptLexemes l start e.2 < n := hlt e.1 _ rfl
            refine ⟨e :: pre, p, post, by rw [hsplit, List.cons_append], hp,
              fun e' he' => ?_, hpost, ?_⟩
            · rcases List.mem_cons.mp he' with rfl | he'
              · exact he1
              · exact hpre e' he'
            · intro t1 m1 hq
              simp only [Option.some.injEq, Prod.mk.injEq] at hq
              omega
        · rw [recognizerStep_ge ha hm] at h
          obtain ⟨hn, disj⟩ := ih _ t n hacc h
          refine ⟨hn, ?_⟩
          rcases disj with ⟨heq, hall⟩ | ⟨pre, p, post, hsplit, hp, hpre, hpost, hlt⟩
          · simp only [Option.some.injEq, Prod.mk.injEq] at heq
            obtain ⟨rfl, rfl⟩ := heq
            refine Or.inl ⟨rfl, fun e' he' => ?_⟩
            rcases List.mem_cons.mp he' with rfl | he'
            · omega
            · exact hall e' he'
          · have hmn : m < n := hlt t0 m rfl
            refine Or.inr ⟨e :: pre, p, post, by rw [hsplit, List.cons_append], hp,
              fun e' he' => ?_, hpost, ?_⟩
            · rcases List.mem_cons.mp he' with rfl | he'
              · omega
              · exact hpre e' he'
            · intro t1 m1 hq
              simp only [Option.some.injEq, Prod.mk.injEq] at hq
              omega
/-- Claim C1: for every lexeme list and starting index, `isKeyword` returns
the keyword-table entry whose phrase yields the longest successful match at
that index (in lexemes consumed); among entries achieving that maximal
length the one occurring first in table order wins (everything before the
winner matches strictly fewer lexemes, everything after matches at most as
many); if no entry matches, the no-keyword sentinel is returned. -/
theorem claim1_isKeyword_greedy (l : List Lexeme) (start : Nat) :
    (isKeyword l start = none ↔ ∀ e ∈ keywordEntries, acceptLexemes l start e.2 = 0) ∧
    ∀ tok n, isKeyword l start = some (tok, n) →
      ∃ t, tok = mkKeywordToken l start t ∧
        ∃ pre p post, keywordEntries = pre ++ (t, p) :: post ∧
          acceptLexemes l start p = n ∧ n ≠ 0 ∧
          (∀ e ∈ pre, acceptLexemes l start e.2 < n) ∧
          (∀ e ∈ post, acceptLexemes l start e.2 ≤ n) := by
  constructor
  · constructor
    · intro h
      have hb : bestMatch l start = none := by
        unfold isKeyword at h
        exact Option.map_eq_none'.mp h
      unfold bestMatch at hb
      exact (foldl_recognizer_none l start keywordEntries none hb).2
    · intro h
      unfold isKeyword bestMatch
      rw [foldl_recognizer_all_zero l start keywordEntries none h]
      rfl
  · intro tok n h
    unfold isKeyword at h
    cases hb : bestMatch l start with
    | none => rw [hb] at h; cases h
    | some q =>
      obtain ⟨t, n'⟩ := q
      rw [hb] at h
      simp only [Option.map_some', Option.some.injEq, Prod.mk.injEq] at h
      obtain ⟨rfl, rfl⟩ := h
      unfold bestMatch at hb
      have hs := foldl_recognizer_some l start keywordEntries none t n'
        (by intro t0 m hq; cases hq) hb
      rcases hs.2 with ⟨heq, _⟩ | ⟨pre, p, post, hsplit, hp, hpre, hpost, _⟩
      · cases heq
      · exact ⟨t, rfl, pre, p, post, hsplit, hp, hs.1, hpre, hpost⟩

/-- Claim C1 (witness): instantiated at the single lexeme `"चीज़"`, where the
duplicate-phrase entries `TT_HASA` and `TT_HASAN` both match one lexeme and
the earlier entry `TT_HASA` wins. -/
theorem claim1_witness :
    ∃ t, mkKeywordToken [⟨"चीज़", "f", 3⟩] 0 TT_HASA =
        mkKeywordToken [⟨"चीज़", "f", 3⟩] 0 t ∧
      ∃ pre p post, keywordEntries = pre ++ (t, p) :: post ∧
        acceptLexemes [⟨"चीज़", "f", 3⟩] 0 p = 1 ∧ (1 : Nat) ≠ 0 ∧
        (∀ e ∈ pre, acceptLexemes [⟨"चीज़", "f", 3⟩] 0 e.2 < 1) ∧
        (∀ e ∈ post, acceptLexemes [⟨"चीज़", "f", 3⟩] 0 e.2 ≤ 1) :=
  (claim1_isKeyword_greedy [⟨"चीज़", "f", 3⟩] 0).2
    (mkKeywordToken [⟨"चीज़", "f", 3⟩] 0 TT_HASA) 1 rfl
@[simp] theorem literalToken_type (t : TokenType) (x : Lexeme) (d : Option TokenData) :
    (literalToken t x d).type = t := rfl

@[simp] theorem literalToken_data (t : TokenType) (x : Lexeme) (d : Option TokenData) :
    (literalToken t x d).data = d := rfl

@[simp] theorem mkKeywordToken_type (l : List Lexeme) (start : Nat) (t : TokenType) :
    (mkKeywordToken l start t).type = t := rfl

@[simp] theorem mkKeywordToken_data (l : List Lexeme) (start : Nat) (t : TokenType) :
    (mkKeywordToken l start t).data = none := rfl

@[simp] theorem eofToken_type (l : List Lexeme) : (eofToken l).type = TT_EOF := rfl

@[simp] theorem eofToken_data (l : List Lexeme) : (eofToken l).data = none := rfl

/-- A successful keyword recognition returns a keyword token built from some
entry of the Keyword Table. -/
theorem isKeyword_some_shape {l : List Lexeme} {start : Nat} {tok : Token} {n : Nat}
    (h : isKeyword l start = some (tok, n)) :
    ∃ t, tok = mkKeywordToken l start t ∧ t ∈ keywordEntries.map Prod.fst := by
  unfold isKeyword at h
  cases hb : bestMatch l start with
  | none => rw [hb] at h; cases h
  | some q =>
    obtain ⟨t, n'⟩ := q
    rw [hb] at h
    simp only [Option.map_some', Option.some.injEq, Prod.mk.injEq] at h
    obtain ⟨rfl, rfl⟩ := h
    unfold bestMatch at hb
    have hs := foldl_recognizer_some l start keywordEntries none t n'
      (by intro t0 m hq; cases hq) hb
    rcases hs.2 with ⟨heq, _⟩ | ⟨pre, p, post, hsplit, _, _, _, _⟩
    · cases heq
    · exact ⟨t, rfl, by rw [hsplit]; simp⟩

/-- No entry of the Keyword Table is for the end-of-input kind (its
`keywords` entry is empty, so it is filtered out of the table). -/
theorem keywordEntries_fst_ne_eof : ∀ t ∈ keywordEntries.map Prod.fst, t ≠ TT_EOF := by
  decide

/-- Every token emitted by one scan step is not an end-of-input token, and
carries a payload only if it is an integer or float literal token. -/
theorem tokenizeStep_ok_props {l : List Lexeme} {start : Nat} {x : Lexeme}
    {tok : Token} {n : Nat} (h : tokenizeStep l start x = .ok (tok, n)) :
    tok.type ≠ TT_EOF ∧
    (tok.data ≠ none → tok.type = TT_INTEGER ∨ tok.type = TT_FLOAT) := by
  unfold tokenizeStep at h
  split at h
  · have h1 := congrArg Prod.fst (Except.ok.inj h)
    subst h1
    exact ⟨by simp, fun hd => absurd rfl hd⟩
  · split at h
    · rename_i tok' n' hk
      have h1 := congrArg Prod.fst (Except.ok.inj h)
      subst h1
      obtain ⟨t, rfl, hmem⟩ := isKeyword_some_shape hk
      exact ⟨by simpa using keywordEntries_fst_ne_eof t hmem, fun hd => absurd rfl hd⟩
    · split at h
      · split at h
        · have h1 := congrArg Prod.fst (Except.ok.inj h)
          subst h1
          exact ⟨by simp, fun _ => Or.inl (by simp)⟩
        · cases h
      · split at h
        · have h1 := congrArg Prod.fst (Except.ok.inj h)
          subst h1
          exact ⟨by simp, fun _ => Or.inr (by simp)⟩
        · split at h
          · have h1 := congrArg Prod.fst (Except.ok.inj h)
            subst h1
            exact ⟨by simp, fun hd => absurd rfl hd⟩
          · split at h
            · have h1 := congrArg Prod.fst (Except.ok.inj h)
              subst h1
              exact ⟨by simp, fun hd => absurd rfl hd⟩
            · cases h

/-- Shape of every successful scan: the result is the accumulated tokens,
then the tokens emitted by the remaining steps (none of them end-of-input,
payloads only on integer and float literals), then the end-of-input
token. -/
theorem tokenizeGo_ok_spec :
    ∀ (fuel : Nat) (l : List Lexeme) (start : Nat) (acc ts : List Token),
      tokenizeGo fuel l start acc = .ok ts →
      ∃ mid, ts = acc ++ mid ++ [eofToken l] ∧
        ∀ tok ∈ mid, tok.type ≠ TT_EOF ∧
          (tok.data ≠ none → tok.type = TT_INTEGER ∨ tok.type = TT_FLOAT) := by
  intro fuel
  induction fuel with
  | zero => intro l start acc ts h; exact absurd h (by simp [tokenizeGo])
  | succ fuel ih =>
    intro l start acc ts h
    rw [tokenizeGo] at h
    split at h
    · obtain rfl : acc ++ [eofToken l] = ts := Except.ok.inj h
      exact ⟨[], by simp, by simp⟩
    · split at h
      · rename_i x hx q tok n hs
        obtain ⟨mid, rfl, hmid⟩ := ih l (start + n) (acc ++ [tok]) ts h
        refine ⟨tok :: mid, by simp, fun tk htk => ?_⟩
        rcases List.mem_cons.mp htk with rfl | htk
        · exact tokenizeStep_ok_props hs
        · exact hmid tk htk
      · cases h

/-- Claim C5: on every successful tokenization the token list is non-empty,
ends with the end-of-input token, contains the end-of-input kind exactly
once, and an empty lexeme list yields exactly the end-of-input token. -/
theorem claim5_eof_invariant (l : List Lexeme) (ts : List Token)
    (h : tokenizeLexemes l = .ok ts) :
    ts ≠ [] ∧ ts.getLast? = some (eofToken l) ∧
    ts.countP (fun tok => decide (tok.type = TT_EOF)) = 1 ∧
    (l = [] → ts = [eofToken l]) := by
  have h0 := h
  unfold tokenizeLexemes at h
  obtain ⟨mid, rfl, hmid⟩ := tokenizeGo_ok_spec (l.length + 1) l 0 [] ts h
  refine ⟨by simp, ?_, ?_, ?_⟩
  · simp only [List.nil_append]
    exact List.getLast?_concat _
  · simp only [List.nil_append, List.countP_append]
    have hz : mid.countP (fun tok => decide (tok.type = TT_EOF)) = 0 :=
      List.countP_eq_zero.mpr (fun tok htk => by simpa using (hmid tok htk).1)
    simp [hz, List.countP_cons]
  · intro hl
    subst hl
    have hcomp : tokenizeLexemes ([] : List Lexeme) = .ok [eofToken []] := rfl
    have : ([eofToken ([] : List Lexeme)] : List Token) = [] ++ mid ++ [eofToken []] := by
      have := hcomp.symm.trans h0
      simpa using this
    have hlen := congrArg List.length this
    simp only [List.length_append, List.length_cons, List.length_nil] at hlen
    have : mid = [] := List.eq_nil_of_length_eq_zero (by omega)
    simp [this]

/-- Claim C5 (witness): the empty lexeme list tokenizes successfully, and
the invariant holds of its output. -/
theorem claim5_witness :
    ([eofToken ([] : List Lexeme)] : List Token) ≠ [] ∧
    ([eofToken ([] : List Lexeme)] : List Token).getLast? = some (eofToken []) ∧
    ([eofToken ([] : List Lexeme)] : List Token).countP
      (fun tok => decide (tok.type = TT_EOF)) = 1 ∧
    (([] : List Lexeme) = [] → ([eofToken ([] : List Lexeme)] : List Token) = [eofToken []]) :=
  claim5_eof_invariant [] [eofToken []] rfl

/-- Claim C7: the token payload union offers exactly the two numeric
alternatives of `src/tokenizer.h` (a 64-bit signed integer and a float, no
boolean slot), and every token a successful tokenization produces carries a
payload only if it is of the integer or float kind. -/
theorem claim7_tokenData_shape :
    (∀ d : TokenData, (∃ n : I64, d = TokenData.i n) ∨ (∃ b : FloatBits, d = TokenData.f b)) ∧
    ∀ (l : List Lexeme) (ts : List Token), tokenizeLexemes l = .ok ts →
      ∀ tok ∈ ts, tok.data ≠ none → tok.type = TT_INTEGER ∨ tok.type = TT_FLOAT := by
  constructor
  · intro d
    cases d with
    | i n => exact Or.inl ⟨n, rfl⟩
    | f b => exact Or.inr ⟨b, rfl⟩
  · intro l ts h tok htok hdata
    unfold tokenizeLexemes at h
    obtain ⟨mid, rfl, hmid⟩ := tokenizeGo_ok_spec (l.length + 1) l 0 [] ts h
    simp only [List.nil_append] at htok
    rcases List.mem_append.mp htok with htok | htok
    · exact (hmid tok htok).2 hdata
    · obtain rfl : tok = eofToken l := by simpa using htok
      exact absurd rfl hdata
/-- Claim C7 (witness): the integer token produced for the lexeme `"42"`
carries a payload and is of the integer kind. -/
theorem claim7_witness :
    (literalToken .TT_INTEGER ⟨"42", "f", 1⟩
        (some (.i ⟨42, by norm_num⟩))).type = TT_INTEGER ∨
    (literalToken .TT_INTEGER ⟨"42", "f", 1⟩
        (some (.i ⟨42, by norm_num⟩))).type = TT_FLOAT :=
  claim7_tokenData_shape.2 [⟨"42", "f", 1⟩]
    [literalToken .TT_INTEGER ⟨"42", "f", 1⟩ (some (.i ⟨42, by norm_num⟩)),
      eofToken [⟨"42", "f", 1⟩]] rfl
    (literalToken .TT_INTEGER ⟨"42", "f", 1⟩ (some (.i ⟨42, by norm_num⟩)))
    (by simp) (by simp)

/-- A scan step on a lexeme that is not a newline, matches no keyword at the
cursor, and satisfies no literal classifier is the unrecognized-lexeme
error. -/
theorem tokenizeStep_unrecognized {l : List Lexeme} {start : Nat} {x : Lexeme}
    (h1 : x.image ≠ "\n") (h2 : isKeyword l start = none)
    (h3 : isInteger x.image = false) (h4 : isFloat x.image = false)
    (h5 : isString x.image = false) (h6 : isIdentifier x.image = false) :
    tokenizeStep l start x = .error (.unrecognized x.image x.fname x.line) := by
  simp [tokenizeStep, h1, h2, h3, h4, h5, h6]

/-- Claim C6 (counterexample): the newline lexeme `"\n"` matches no keyword
phrase and none of the literal shapes, yet tokenization of `["\n"]` succeeds
(with a newline token), so a lexeme list containing a lexeme that matches no
keyword phrase and no literal shape need not make `tokenizeLexemes` fail. -/
theorem claim6_counterexample :
    (∀ e ∈ keywordEntries, acceptLexemes [⟨"\n", "f", 1⟩] 0 e.2 = 0) ∧
    isInteger "\n" = false ∧ isFloat "\n" = false ∧ isString "\n" = false ∧
    isIdentifier "\n" = false ∧
    tokenizeLexemes [⟨"\n", "f", 1⟩] =
      .ok [literalToken .TT_NEWLINE ⟨"\n", "f", 1⟩ none, eofToken [⟨"\n", "f", 1⟩]] :=
  ⟨by decide, by decide, by decide, by decide, by decide, rfl⟩

/-- Claim C6 (amended): whenever the scan reaches a cursor position whose
lexeme is not a newline, matches no keyword phrase at that position, and
satisfies none of the literal classifiers, tokenization fails with the
unrecognized-lexeme error naming that lexeme's text, file name and line
number (in particular so does `tokenizeLexemes` when this happens at the
start); the failure carries no token list. -/
theorem claim6_amended :
    (∀ (fuel : Nat) (l : List Lexeme) (start : Nat) (acc : List Token) (x : Lexeme),
      l.get? start = some x → x.image ≠ "\n" → isKeyword l start = none →
      isInteger x.image = false → isFloat x.image = false →
      isString x.image = false → isIdentifier x.image = false →
      tokenizeGo (fuel + 1) l start acc = .error (.unrecognized x.image x.fname x.line)) ∧
    ∀ (l : List Lexeme) (x : Lexeme),
      l.get? 0 = some x → x.image ≠ "\n" → isKeyword l 0 = none →
      isInteger x.image = false → isFloat x.image = false →
      isString x.image = false → isIdentifier x.image = false →
      tokenizeLexemes l = .error (.unrecognized x.image x.fname x.line) := by
  have step : ∀ (fuel : Nat) (l : List Lexeme) (start : Nat) (acc : List Token) (x : Lexeme),
      l.get? start = some x → x.image ≠ "\n" → isKeyword l start = none →
      isInteger x.image = false → isFloat x.image = false →
      isString x.image = false → isIdentifier x.image = false →
      tokenizeGo (fuel + 1) l start acc = .error (.unrecognized x.image x.fname x.line) := by
    intro fuel l start acc x hx h1 h2 h3 h4 h5 h6
    have hx' : l[start]? = some x := by simpa using hx
    rw [tokenizeGo]
    simp [hx', tokenizeStep_unrecognized h1 h2 h3 h4 h5 h6]
  refine ⟨step, fun l x hx h1 h2 h3 h4 h5 h6 => ?_⟩
  unfold tokenizeLexemes
  exact step l.length l 0 [] x hx h1 h2 h3 h4 h5 h6

/-- Claim C6 (witness for the amended theorem): the spec's scenario E, the
lexeme `"@@@"`, fails with the unrecognized-lexeme error. -/
theorem claim6_witness :
    tokenizeLexemes [⟨"@@@", "f", 1⟩] = .error (.unrecognized "@@@" "f" 1) :=
  claim6_amended.2 [⟨"@@@", "f", 1⟩] ⟨"@@@", "f", 1⟩ rfl (by decide) rfl rfl rfl rfl rfl
theorem splitWordsAux_ne_nil (cs : List Char) :
    ∀ acc, ∃ hd tl, splitWordsAux cs acc = hd :: tl := by
  induction cs with
  | nil => intro acc; exact ⟨acc.reverse, [], rfl⟩
  | cons c cs ih =>
    intro acc
    by_cases hc : c = ' '
    · exact ⟨acc.reverse, splitWordsAux cs [], by simp [splitWordsAux, hc]⟩
    · obtain ⟨hd, tl, hh⟩ := ih (c :: acc)
      exact ⟨hd, tl, by simp [splitWordsAux, hc, hh]⟩

theorem phraseWords_ne_nil (s : String) : phraseWords s ≠ [] := by
  obtain ⟨hd, tl, hh⟩ := splitWordsAux_ne_nil s.data []
  simp [phraseWords, hh]

theorem charJoin_cons (w : List Char) (v : List Char) (ws : List (List Char)) :
    charJoin (w :: v :: ws) = w ++ ' ' :: charJoin (v :: ws) := rfl

theorem charJoin_splitWordsAux (cs : List Char) :
    ∀ acc, charJoin (splitWordsAux cs acc) = acc.reverse ++ cs := by
  induction cs with
  | nil => intro acc; simp [splitWordsAux, charJoin]
  | cons c cs ih =>
    intro acc
    by_cases hc : c = ' '
    · obtain ⟨hd, tl, hh⟩ := splitWordsAux_ne_nil cs ([] : List Char)
      subst hc
      have hstep : splitWordsAux (' ' :: cs) acc = acc.reverse :: splitWordsAux cs [] := by
        simp [splitWordsAux]
      rw [hstep, hh, charJoin_cons, ← hh, ih []]
      simp
    · have hstep : splitWordsAux (c :: cs) acc = splitWordsAux cs (c :: acc) := by
        simp [splitWordsAux, hc]
      rw [hstep, ih (c :: acc)]
      simp
theorem joinWords_data (ws : List String) :
    (joinWords ws).data = charJoin (ws.map String.data) := by
  induction ws with
  | nil => rfl
  | cons w ws ih =>
    cases ws with
    | nil => rfl
    | cons v ws =>
      show (w ++ " " ++ joinWords (v :: ws)).data = _
      rw [String.data_append, String.data_append, ih]
      show w.data ++ [' '] ++ _ = _
      rw [List.append_assoc]
      rfl

/-- Joining the words of a phrase with single spaces restores the phrase. -/
theorem joinWords_phraseWords (s : String) : joinWords (phraseWords s) = s := by
  apply String.ext
  rw [joinWords_data]
  unfold phraseWords
  rw [List.map_map]
  have : (String.data ∘ String.mk) = id := rfl
  rw [this, List.map_id, charJoin_splitWordsAux s.data []]
  rfl

theorem splitWordsAux_no_space (w : List Char) :
    ∀ acc, (∀ c ∈ w, c ≠ ' ') → splitWordsAux w acc = [acc.reverse ++ w] := by
  induction w with
  | nil => intro acc _; simp [splitWordsAux]
  | cons c w ih =>
    intro acc hw
    have hc : c ≠ ' ' := hw c (by simp)
    have hstep : splitWordsAux (c :: w) acc = splitWordsAux w (c :: acc) := by
      simp [splitWordsAux, hc]
    rw [hstep, ih (c :: acc) (fun d hd => hw d (by simp [hd]))]
    simp

theorem splitWordsAux_word_space (w : List Char) (cs : List Char) :
    ∀ acc, (∀ c ∈ w, c ≠ ' ') →
      splitWordsAux (w ++ ' ' :: cs) acc = (acc.reverse ++ w) :: splitWordsAux cs [] := by
  induction w with
  | nil =>
    intro acc _
    simp [splitWordsAux]
  | cons c w ih =>
    intro acc hw
    have hc : c ≠ ' ' := hw c (by simp)
    have hstep : splitWordsAux (c :: (w ++ ' ' :: cs)) acc =
        splitWordsAux (w ++ ' ' :: cs) (c :: acc) := by
      simp [splitWordsAux, hc]
    rw [List.cons_append, hstep, ih (c :: acc) (fun d hd => hw d (by simp [hd]))]
    simp

/-- Splitting a single-space join of space-free words restores the words. -/
theorem splitWordsAux_charJoin (ws : List (List Char)) (hne : ws ≠ [])
    (hsp : ∀ w ∈ ws, ∀ c ∈ w, c ≠ ' ') :
    splitWordsAux (charJoin ws) [] = ws := by
  induction ws with
  | nil => exact absurd rfl hne
  | cons w ws ih =>
    cases ws with
    | nil =>
      show splitWordsAux w [] = [w]
      simpa using splitWordsAux_no_space w [] (hsp w (by simp))
    | cons v ws =>
      rw [charJoin_cons,
        splitWordsAux_word_space w (charJoin (v :: ws)) [] (hsp w (by simp)),
        ih (by simp) (fun u hu c hc => hsp u (by simp [hu]) c hc)]
      simp

/-- Splitting the single-space join of space-free words (as strings)
restores the words. -/
theorem phraseWords_joinWords (ws : List String) (hne : ws ≠ [])
    (hsp : ∀ w ∈ ws, ∀ c ∈ w.data, c ≠ ' ') :
    phraseWords (joinWords ws) = ws := by
  unfold phraseWords
  rw [joinWords_data,
    splitWordsAux_charJoin (ws.map String.data)
      (by simpa using hne)
      (by intro w hw c hc
          obtain ⟨v, hv, rfl⟩ := List.mem_map.mp hw
          exact hsp v hv c hc),
    List.map_map]
  have : (String.mk ∘ String.data) = id := by
    funext v
    exact rfl
  rw [this, List.map_id]
/-- A successful word-for-word match pins the words to the images of the
consumed lexemes. -/
theorem matchWords_eq_take {ws : List String} :
    ∀ {xs : List Lexeme}, matchWords ws xs = true →
      ws = (xs.take ws.length).map Lexeme.image ∧ ws.length ≤ xs.length := by
  induction ws with
  | nil => intro xs _; exact ⟨by simp, by simp⟩
  | cons w ws ih =>
    intro xs h
    cases xs with
    | nil => simp [matchWords] at h
    | cons x xs =>
      simp only [matchWords, Bool.and_eq_true] at h
      obtain ⟨hw, hm⟩ := h
      obtain ⟨hws, hlen⟩ := ih hm
      refine ⟨?_, by simpa using hlen⟩
      rw [List.length_cons, List.take_succ_cons, List.map_cons, ← hws]
      exact congrArg (fun z => z :: ws) (eq_of_beq hw)

/-- The images of a window of lexemes always match those lexemes word for
word. -/
theorem matchWords_take (xs : List Lexeme) :
    ∀ n, matchWords ((xs.take n).map Lexeme.image) xs = true := by
  induction xs with
  | nil => intro n; simp [matchWords]
  | cons x xs ih =>
    intro n
    cases n with
    | zero => simp [matchWords]
    | succ n =>
      rw [List.take_succ_cons, List.map_cons]
      show (x.image == x.image && matchWords ((xs.take n).map Lexeme.image) xs) = true
      rw [beq_self_eq_true, Bool.true_and]
      exact ih n

/-- Claim C2: over lexeme lists whose images contain no space character (the
lexer's input contract, spec sections 1 and 6), a nonzero result of
`acceptLexemes` counts consecutive lexemes beginning at the start index
whose texts joined with single spaces equal the phrase (and the window stays
inside the list); a zero result means no such window exists, in particular
whenever the window would run past the end of the list. -/
theorem claim2_acceptLexemes_spec (l : List Lexeme) (start : Nat) (phrase : String)
    (hsp : ∀ x ∈ l, ∀ c ∈ x.image.data, c ≠ ' ') :
    (acceptLexemes l start phrase ≠ 0 →
      start + acceptLexemes l start phrase ≤ l.length ∧
      joinWords (((l.drop start).take (acceptLexemes l start phrase)).map Lexeme.image) =
        phrase) ∧
    (acceptLexemes l start phrase = 0 →
      ∀ n, 0 < n → start + n ≤ l.length →
        joinWords (((l.drop start).take n).map Lexeme.image) ≠ phrase) := by
  constructor
  · intro hr
    unfold acceptLexemes at hr ⊢
    by_cases hm : matchWords (phraseWords phrase) (l.drop start) = true
    · rw [if_pos hm] at hr ⊢
      obtain ⟨hws, hlen⟩ := matchWords_eq_take hm
      constructor
      · have h1 : (phraseWords phrase).length ≤ l.length - start := by
          simpa using hlen
        have h3 : 0 < (phraseWords phrase).length :=
          List.length_pos.mpr (phraseWords_ne_nil phrase)
        omega
      · rw [← hws]
        exact joinWords_phraseWords phrase
    · rw [if_neg hm] at hr
      exact absurd rfl hr
  · intro hr n hn hle hjoin
    unfold acceptLexemes at hr
    by_cases hm : matchWords (phraseWords phrase) (l.drop start) = true
    · rw [if_pos hm] at hr
      have h3 : 0 < (phraseWords phrase).length :=
        List.length_pos.mpr (phraseWords_ne_nil phrase)
      omega
    · have himgs : phraseWords phrase = ((l.drop start).take n).map Lexeme.image := by
        rw [← hjoin]
        refine phraseWords_joinWords _ ?_ ?_
        · have hlen : ((l.drop start).take n).length = n := by
            rw [List.length_take, List.length_drop]
            omega
          intro hnil
          rw [List.map_eq_nil_iff.mp hnil] at hlen
          simp at hlen
          omega
        · intro w hw c hc
          obtain ⟨x, hx, rfl⟩ := List.mem_map.mp hw
          have hxl : x ∈ l := List.drop_subset _ _ (List.take_subset _ _ hx)
          exact hsp x hxl c hc
      apply hm
      rw [himgs]
      exact matchWords_take (l.drop start) n

/-- Claim C2 (witness): the two-lexeme window `["अब", "है"]` joined with a
single space is exactly the phrase `"अब है"`, and `acceptLexemes` reports a
two-lexeme match. -/
theorem claim2_witness :
    0 + acceptLexemes [⟨"अब", "f", 1⟩, ⟨"है", "f", 1⟩] 0 "अब है" ≤
      ([⟨"अब", "f", 1⟩, ⟨"है", "f", 1⟩] : List Lexeme).length ∧
    joinWords (((([⟨"अब", "f", 1⟩, ⟨"है", "f", 1⟩] : List Lexeme).drop 0).take
        (acceptLexemes [⟨"अब", "f", 1⟩, ⟨"है", "f", 1⟩] 0 "अब है")).map Lexeme.image) =
      "अब है" :=
  (claim2_acceptLexemes_spec [⟨"अब", "f", 1⟩, ⟨"है", "f", 1⟩] 0 "अब है"
    (by decide)).1 (by decide)
